import Mathlib

/-!
Shallow embedding of `apt_mirror_updater/eol.py` (the `gather_eol_dates`
function and the library collaborators it uses) together with proofs about
it.

Modelling conventions:
* Python strings are Lean `String`s; all tokenizing is done over `String.data`
  (`List Char`) with structurally recursive helpers so that closed
  computations reduce in the kernel.
* File contents (Python `bytes`) are `List Nat`, one number per byte.
* Python exceptions are modelled with `Except GatherError`: `decodeError`
  stands for a `UnicodeDecodeError` from `bytes.decode('ascii')` and
  `invalidDate` for `humanfriendly.InvalidDate` raised by `parse_date`.
* `time.mktime` converts a local-time calendar tuple to an epoch timestamp;
  it depends on the host time zone, so it is an explicit function parameter
  `mk : DateTuple → Int` of the embedding.  The code always passes
  `(-1, -1, -1)` for the `wday`/`yday`/`isdst` slots, so those slots are
  dropped from `DateTuple`.  `mktime` returns a float that the code
  truncates with `int(...)`; epoch seconds of whole calendar seconds are
  integral, so the model uses `Int` directly.
* The execution context from `executor.contexts` is a record of the three
  capabilities the function uses: `is_directory`, `list_entries`,
  `read_file`.
-/

/-- Python-style split of a character list at every character satisfying `p`.
Mirrors `str.split(sep)` semantics for a one-character separator: the empty
list yields `[[]]`, adjacent separators yield empty fields. -/
def splitOnPred (p : Char → Bool) : List Char → List (List Char)
  | [] => [[]]
  | c :: rest =>
    let r := splitOnPred p rest
    if p c then [] :: r
    else
      match r with
      | h :: t => (c :: h) :: t
      | [] => [[c]]

/-- Python `str.split(sep)` for a single-character separator. -/
def splitOnChar (sep : Char) (l : List Char) : List (List Char) :=
  splitOnPred (fun c => c == sep) l

/-- The ASCII characters Python treats as whitespace in `str.split()` and
`str.strip()` (the inputs in question are ASCII-decoded, so the non-ASCII
Unicode whitespace cases cannot arise). -/
def isPyWs (c : Char) : Bool :=
  c == ' ' || c == '\t' || c == '\n' || c == '\r' || c == '\x0b' || c == '\x0c'

/-- Python `str.split()` with no argument: split on whitespace runs and drop
empty fields. -/
def pySplitWs (l : List Char) : List (List Char) :=
  (splitOnPred isPyWs l).filter (fun f => f ≠ [])

/-- Python `str.strip()` over ASCII whitespace. -/
def trimWs (l : List Char) : List Char :=
  (l.dropWhile isPyWs).reverse.dropWhile isPyWs |>.reverse

/-- Value of a nonempty string of ASCII decimal digits, `none` otherwise. -/
def digitsToNat (l : List Char) : Option Nat :=
  if l ≠ [] ∧ l.all (fun c => c.isDigit) then
    some (l.foldl (fun acc c => acc * 10 + (c.toNat - 48)) 0)
  else none

/-- Python `int(str)`: surrounding whitespace stripped, optional sign,
nonempty digit run.  (PEP 515 underscore separators and non-ASCII digits are
not modelled; no input in this development contains them.) -/
def strToInt (s : List Char) : Option Int :=
  match trimWs s with
  | '+' :: rest => (digitsToNat rest).map Int.ofNat
  | '-' :: rest => (digitsToNat rest).map (fun n => -(n : Int))
  | rest => (digitsToNat rest).map Int.ofNat

/-- ASCII lowercasing of one character, as Python `str.lower` acts on the
ASCII range (the strings involved are ASCII). -/
def lowerChar (c : Char) : Char :=
  if 65 ≤ c.toNat ∧ c.toNat ≤ 90 then Char.ofNat (c.toNat + 32) else c

/-- Python `str.lower` (ASCII range). -/
def strLower (s : String) : String := String.mk (s.data.map lowerChar)

/-- Index of the last character satisfying `p`, or `none`.  Mirrors Python
`str.rfind` for a one-character needle (with `-1` mapped to `none`). -/
def rfindIdx (p : Char → Bool) (l : List Char) : Option Nat :=
  match l with
  | [] => none
  | c :: rest =>
    match rfindIdx p rest with
    | some i => some (i + 1)
    | none => if p c then some 0 else none

/-- `os.path.splitext` for POSIX paths: split at the last dot that comes
after the last path separator, except that leading dots of the basename do
not start an extension. -/
def splitext (p : String) : String × String :=
  let l := p.data
  let sepIndex : Int := match rfindIdx (fun c => c == '/') l with
    | some i => (i : Int)
    | none => -1
  let dotIndex : Int := match rfindIdx (fun c => c == '.') l with
    | some i => (i : Int)
    | none => -1
  if sepIndex < dotIndex then
    let base := (l.drop (sepIndex + 1).toNat).take (dotIndex - sepIndex - 1).toNat
    if base.any (fun c => c ≠ '.') then
      (String.mk (l.take dotIndex.toNat), String.mk (l.drop dotIndex.toNat))
    else (p, "")
  else (p, "")

/-- `os.path.join` for POSIX paths, two components, as used on
`directory` and a directory entry. -/
def pjoin (a b : String) : String :=
  if b.data.head? = some '/' then b
  else if a = "" ∨ a.data.getLast? = some '/' then a ++ b
  else a ++ "/" ++ b

/-- The calendar tuple `(year, month, day, hour, minute, second)` produced by
`humanfriendly.parse_date`. -/
def DateTuple := Int × Int × Int × Int × Int × Int

/-- `humanfriendly.parse_date`: one whitespace token is parsed as
`YYYY-MM-DD` (missing parts default to 1) with hour/minute/second zero; two
or more tokens parse the first as the date and the second as `HH:MM:SS`
(missing parts default to 0).  Every dash/colon-separated part must be an
integer; otherwise the collaborator raises `InvalidDate`, modelled as
`none`. -/
def parse_date (datestring : String) : Option DateTuple :=
  match pySplitWs datestring.data with
  | t0 :: t1 :: _ =>
    match ((splitOnChar '-' t0).mapM strToInt), ((splitOnChar ':' t1).mapM strToInt) with
    | some dp, some tp =>
      match dp ++ [1, 1], tp ++ [0, 0] with
      | y :: mo :: d :: _, h :: mi :: s :: _ => some (y, mo, d, h, mi, s)
      | _, _ => none
    | _, _ => none
  | _ =>
    match ((splitOnChar '-' datestring.data).mapM strToInt) with
    | some dp =>
      match dp ++ [1, 1] with
      | y :: mo :: d :: _ => some (y, mo, d, 0, 0, 0)
      | _ => none
    | none => none

/-- Failures that `gather_eol_dates` lets propagate: an ASCII decoding error
from `bytes.decode('ascii')` or an `InvalidDate` from `parse_date`. -/
inductive GatherError where
  | decodeError : GatherError
  | invalidDate : GatherError
deriving DecidableEq, Repr

/-- Python `bytes.decode('ascii')`: succeeds iff every byte is below 128. -/
def decodeAscii (bs : List Nat) : Except GatherError String :=
  if bs.all (fun b => b < 128) then
    .ok (String.mk (bs.map (fun b => Char.ofNat b)))
  else .error .decodeError

/-- Byte string of an ASCII Lean string, for building file contents. -/
def asciiBytes (s : String) : List Nat := s.data.map (fun c => c.toNat)

/-- A `csv.DictReader` record: association list from column name to field
value, `none` standing for Python `None` (the `restval` padding for short
rows). -/
def Row := List (String × Option String)

/-- Sub-mapping of one distributor: codename to EOL timestamp, in Python
dict insertion order. -/
def Releases := List (String × Int)

/-- The nested EOL table: distributor id to sub-mapping, in Python dict
insertion order. -/
def Table := List (String × Releases)

/-- Python `dict` assignment `d[k] = v`: replace in place if the key exists
(keeping its position, like CPython dicts), else append. -/
def dictInsert {β : Type} (d : List (String × β)) (k : String) (v : β) :
    List (String × β) :=
  match d with
  | [] => [(k, v)]
  | (k2, v2) :: rest =>
    if k2 = k then (k, v) :: rest else (k2, v2) :: dictInsert rest k v

/-- Python `dict` key lookup (`d[k]` / `k in d`). -/
def dictLookup {β : Type} (d : List (String × β)) (k : String) : Option β :=
  match d with
  | [] => none
  | (k2, v2) :: rest => if k2 = k then some v2 else dictLookup rest k

/-- Drop one trailing carriage return, as the csv reader does for CRLF
line endings. -/
def stripCR (l : List Char) : List Char :=
  match l.reverse with
  | '\r' :: rest => rest.reverse
  | _ => l

/-- Lines an `io.StringIO`/csv reader pair yields from the decoded file:
split on newlines, tolerate CRLF, and drop blank lines (the csv reader
produces an empty record for a blank line and `DictReader` skips empty
records). -/
def csvSplitLines (s : String) : List (List Char) :=
  ((splitOnChar '\n' s.data).map stripCR).filter (fun l => l ≠ [])

/-- Fields of one csv line under the default dialect, restricted to
unquoted fields (no input in this development contains quote characters):
split on commas. -/
def csvFields (line : List Char) : List String :=
  (splitOnChar ',' line).map String.mk

/-- Pair each field name with its value, padding missing trailing values
with `none` (the `DictReader` `restval`).  Extra values beyond the header
would go under the non-string `restkey` key `None`, which a string-keyed
`get` never sees, so they are dropped. -/
def zipPad : List String → List String → List (String × Option String)
  | [], _ => []
  | f :: fs, [] => (f, none) :: zipPad fs []
  | f :: fs, v :: vs => (f, some v) :: zipPad fs vs

/-- The dict `csv.DictReader` builds for one record: `dict(zip(fieldnames,
row))` plus `restval` padding; a duplicated header name keeps the first
position with the last value, as CPython dicts do. -/
def buildRow (fns : List String) (fields : List String) : Row :=
  (zipPad fns fields).foldl (fun d kv => dictInsert d kv.1 kv.2) []

/-- All records `csv.DictReader` yields from the decoded file contents: the
first non-blank line is the header, every further non-blank line one
record. -/
def dictReaderRows (s : String) : List Row :=
  match csvSplitLines s with
  | [] => []
  | header :: rest => rest.map (fun line => buildRow (csvFields header) (csvFields line))

/-- Python `row.get(k)` on a `DictReader` record: `none` when the key is
absent or its value is `None`. -/
def rowGet (r : Row) (k : String) : Option String :=
  match dictLookup r k with
  | some v => v
  | none => none

/-- Python truthiness of an optional string: `None` and `""` are falsy. -/
def pyTruthy : Option String → Bool
  | none => false
  | some s => if s = "" then false else true

/-- Python `a or b` on optional strings: `a` if truthy, else `b`. -/
def pyOr (a b : Option String) : Option String :=
  if pyTruthy a then a else b

/-- The execution context capabilities `gather_eol_dates` consumes
(`executor.contexts`): directory test, directory listing, file read
returning bytes. -/
structure Context where
  is_directory : String → Bool
  list_entries : String → List String
  read_file : String → List Nat

/-- Body of the record loop of `gather_eol_dates`: `series = row.get('series')`,
`eol = row.get('eol-server') or row.get('eol')`; when both are truthy, store
`int(time.mktime(parse_date(eol) + (-1, -1, -1)))` under the series, else
leave the sub-mapping unchanged; an unparsable date propagates as
`invalidDate`. -/
def processRow (mk : DateTuple → Int) (r : Row) (inner : Releases) :
    Except GatherError Releases :=
  if pyTruthy (rowGet r "series")
      && pyTruthy (pyOr (rowGet r "eol-server") (rowGet r "eol")) then
    match rowGet r "series", pyOr (rowGet r "eol-server") (rowGet r "eol") with
    | some s, some e =>
      match parse_date e with
      | some d => .ok (dictInsert inner s (mk d))
      | none => .error .invalidDate
    | _, _ => .ok inner
  else .ok inner

/-- The record loop of `gather_eol_dates` over the rows of one file. -/
def gatherRows (mk : DateTuple → Int) : Releases → List Row → Except GatherError Releases
  | inner, [] => .ok inner
  | inner, r :: rest =>
    match processRow mk r inner with
    | .ok inner2 => gatherRows mk inner2 rest
    | .error e => .error e

/-- Sub-mapping gathered from one recognized file: read it through the
context, decode as ASCII, parse the csv records starting from the empty
dict that `known_dates[distributor_id] = {}` installs. -/
def fileRecords (mk : DateTuple → Int) (ctx : Context) (dir entry : String) :
    Except GatherError Releases :=
  match decodeAscii (ctx.read_file (pjoin dir entry)) with
  | .ok text => gatherRows mk [] (dictReaderRows text)
  | .error e => .error e

/-- Body of the entry loop of `gather_eol_dates`: an entry whose extension
lowercases to `.csv` stores the sub-mapping gathered from its file under
the lowercased basename; other entries leave the table unchanged.  (The
source installs the empty sub-mapping before reading the file; since any
failure aborts the whole call, inserting the finished sub-mapping once is
observationally the same.) -/
def processEntry (mk : DateTuple → Int) (ctx : Context) (dir : String)
    (t : Table) (entry : String) : Except GatherError Table :=
  if strLower (splitext entry).2 = ".csv" then
    match fileRecords mk ctx dir entry with
    | .ok inner => .ok (dictInsert t (strLower (splitext entry).1) inner)
    | .error e => .error e
  else .ok t

/-- The entry loop of `gather_eol_dates`. -/
def gatherEntries (mk : DateTuple → Int) (ctx : Context) (dir : String) :
    Table → List String → Except GatherError Table
  | t, [] => .ok t
  | t, e :: rest =>
    match processEntry mk ctx dir t e with
    | .ok t2 => gatherEntries mk ctx dir t2 rest
    | .error err => .error err

/-- The default metadata directory `DISTRO_INFO_DIRECTORY`. -/
def DISTRO_INFO_DIRECTORY : String := "/usr/share/distro-info"

/-- `gather_eol_dates(context, directory)`: empty table when `directory` is
not a directory, else the table accumulated over the directory entries.
`mk` is the local-time `time.mktime` collaborator. -/
def gather_eol_dates (mk : DateTuple → Int) (ctx : Context) (directory : String) :
    Except GatherError Table :=
  if ctx.is_directory directory then
    gatherEntries mk ctx directory [] (ctx.list_entries directory)
  else .ok []

/-- Leap-year test of the proleptic Gregorian calendar. -/
def isLeapYear (y : Nat) : Bool :=
  (y % 4 == 0 && y % 100 != 0) || y % 400 == 0

/-- Days from 1970-01-01 to the first day of year `1970 + n`. -/
def daysToYear : Nat → Nat
  | 0 => 0
  | n + 1 => daysToYear n + (if isLeapYear (1970 + n) then 366 else 365)

/-- Month lengths of year `y`. -/
def monthLengths (y : Nat) : List Nat :=
  [31, if isLeapYear y then 29 else 28, 31, 30, 31, 30, 31, 31, 30, 31, 30, 31]

/-- Days from the first of January to the first of month `m` in year `y`. -/
def daysToMonth (y m : Nat) : Nat :=
  ((monthLengths y).take (m - 1)).foldl (fun a b => a + b) 0

/-- A concrete stand-in for the `time.mktime` collaborator: the epoch
timestamp of a calendar tuple on a host whose local time zone is UTC
(meaningful for dates from 1970 on, which covers every input used here). -/
def mktimeUTC (t : DateTuple) : Int :=
  ((daysToYear (t.1 - 1970).toNat + daysToMonth t.1.toNat t.2.1.toNat
      + (t.2.2.1.toNat - 1) : Nat) : Int) * 86400
    + t.2.2.2.1 * 3600 + t.2.2.2.2.1 * 60 + t.2.2.2.2.2

/-- A context presenting one metadata file `debian.csv` with the single
record `("squeeze", "2014-05-31")`. -/
def ctxDebianSimple : Context where
  is_directory := fun p => p == "/usr/share/distro-info"
  list_entries := fun _ => ["debian.csv"]
  read_file := fun _ => asciiBytes "series,eol\nsqueeze,2014-05-31\n"

/-- C1: on a directory holding exactly one recognized file `debian.csv`
whose records are the header `series,eol` and the single record
`("squeeze", "2014-05-31")`, `gather_eol_dates` returns the nested mapping
sending "debian" to the mapping sending "squeeze" to the local-time
timestamp of 2014-05-31 at midnight (the `mktime` collaborator applied to
`(2014, 5, 31, 0, 0, 0)`). -/
theorem gather_single_debian_csv (mk : DateTuple → Int) (ctx : Context) (dir : String)
    (hdir : ctx.is_directory dir = true)
    (hlist : ctx.list_entries dir = ["debian.csv"])
    (hread : ctx.read_file (pjoin dir "debian.csv")
      = asciiBytes "series,eol\nsqueeze,2014-05-31\n") :
    gather_eol_dates mk ctx dir
      = .ok [("debian", [("squeeze", mk (2014, 5, 31, 0, 0, 0))])] := by
  have hfile : fileRecords mk ctx dir "debian.csv"
      = .ok [("squeeze", mk (2014, 5, 31, 0, 0, 0))] := by
    unfold fileRecords
    rw [hread]
    rfl
  unfold gather_eol_dates
  rw [hdir, hlist]
  simp only [if_true]
  unfold gatherEntries processEntry
  rw [hfile]
  rfl

/-- Witness for C1 at a concrete context and the UTC `mktime` stand-in. -/
theorem gather_single_debian_csv_witness :
    gather_eol_dates mktimeUTC ctxDebianSimple "/usr/share/distro-info"
      = .ok [("debian", [("squeeze", mktimeUTC (2014, 5, 31, 0, 0, 0))])] :=
  gather_single_debian_csv mktimeUTC ctxDebianSimple "/usr/share/distro-info" rfl rfl rfl

/-- Entries whose extension does not lowercase to `.csv` leave the table
untouched, so a listing with no recognized entry leaves the initial table. -/
theorem gatherEntries_no_csv (mk : DateTuple → Int) (ctx : Context) (dir : String)
    (t : Table) (l : List String)
    (h : ∀ e ∈ l, strLower (splitext e).2 ≠ ".csv") :
    gatherEntries mk ctx dir t l = .ok t := by
  induction l generalizing t with
  | nil => rfl
  | cons e rest ih =>
    have he : strLower (splitext e).2 ≠ ".csv" := h e (by simp)
    unfold gatherEntries processEntry
    rw [if_neg he]
    exact ih t (fun x hx => h x (by simp [hx]))

/-- A context whose only metadata directory is `/d`, holding no recognized
file. -/
def ctxNoCsv : Context where
  is_directory := fun p => p == "/d"
  list_entries := fun _ => ["README", "debian.txt"]
  read_file := fun _ => []

/-- C3: a path the context does not report as a directory yields the empty
table without raising, and a directory none of whose entries carries the
recognized extension also yields the empty table (no distributor entry is
created without a recognized file). -/
theorem gather_empty_when_absent_or_unrecognized (mk : DateTuple → Int)
    (ctx : Context) (dir dir2 : String)
    (hnot : ctx.is_directory dir = false)
    (hdir2 : ctx.is_directory dir2 = true)
    (hnone : ∀ e ∈ ctx.list_entries dir2, strLower (splitext e).2 ≠ ".csv") :
    gather_eol_dates mk ctx dir = .ok []
    ∧ gather_eol_dates mk ctx dir2 = .ok [] := by
  constructor
  · unfold gather_eol_dates
    rw [hnot]
    rfl
  · unfold gather_eol_dates
    rw [hdir2]
    simp only [if_true]
    exact gatherEntries_no_csv mk ctx dir2 [] (ctx.list_entries dir2) hnone

/-- Witness for C3 at a concrete context. -/
theorem gather_empty_when_absent_or_unrecognized_witness :
    gather_eol_dates mktimeUTC ctxNoCsv "/nope" = .ok []
    ∧ gather_eol_dates mktimeUTC ctxNoCsv "/d" = .ok [] :=
  gather_empty_when_absent_or_unrecognized mktimeUTC ctxNoCsv "/nope" "/d"
    rfl rfl (by decide)

/-- A context presenting `debian.csv` whose single record carries a time of
day in its EOL field. -/
def ctxDebianNoon : Context where
  is_directory := fun p => p == "/d"
  list_entries := fun _ => ["debian.csv"]
  read_file := fun _ => asciiBytes "series,eol\nsqueeze,2014-05-31 12:00:00\n"

/-- Counterexample to C2: with the UTC `mktime` stand-in, a record whose EOL
field reads `2014-05-31 12:00:00` is stored as the noon timestamp, which
differs from the midnight timestamp of the same calendar date — the code
passes the parsed hour/minute/second straight to `mktime` instead of
zeroing them. -/
theorem gather_time_of_day_kept :
    gather_eol_dates mktimeUTC ctxDebianNoon "/d"
      = .ok [("debian", [("squeeze", mktimeUTC (2014, 5, 31, 12, 0, 0))])]
    ∧ mktimeUTC (2014, 5, 31, 12, 0, 0) ≠ mktimeUTC (2014, 5, 31, 0, 0, 0) := by
  constructor
  · rfl
  · decide

/-- Splitting at a predicate no character satisfies returns the whole list
as the single field. -/
theorem splitOnPred_all_neg (p : Char → Bool) (l : List Char)
    (h : ∀ c ∈ l, p c = false) : splitOnPred p l = [l] := by
  induction l with
  | nil => rfl
  | cons c rest ih =>
    unfold splitOnPred
    rw [h c (by simp), ih (fun x hx => h x (by simp [hx]))]
    simp

/-- C2 (amended): the record loop stores the `mktime` image of the full
tuple returned by `parse_date`; whenever the EOL string contains no
whitespace (hence no time-of-day token, as in all distro-info-data files),
the parsed hour, minute and second are zero, so the stored timestamp is
midnight of the parsed calendar date in the collaborator's local time
zone.  A time of day present in the string is passed through to `mktime`,
not discarded. -/
theorem processRow_midnight_when_date_only (mk : DateTuple → Int) (r : Row)
    (inner : Releases) (str e : String) (y mo d h mi s : Int)
    (hs : rowGet r "series" = some str) (hsne : str ≠ "")
    (he : pyOr (rowGet r "eol-server") (rowGet r "eol") = some e) (hene : e ≠ "")
    (hnws : ∀ c ∈ e.data, isPyWs c = false)
    (hp : parse_date e = some (y, mo, d, h, mi, s)) :
    h = 0 ∧ mi = 0 ∧ s = 0
    ∧ processRow mk r inner = .ok (dictInsert inner str (mk (y, mo, d, 0, 0, 0))) := by
  have hdne : e.data ≠ [] := by
    intro hc
    apply hene
    cases e with
    | mk data =>
      rw [show data = [] from hc]
  have hone : pySplitWs e.data = [e.data] := by
    unfold pySplitWs
    rw [splitOnPred_all_neg isPyWs e.data hnws]
    simp [hdne]
  have hzero : h = 0 ∧ mi = 0 ∧ s = 0 := by
    unfold parse_date at hp
    rw [hone] at hp
    rcases hdne2 : e.data with _ | ⟨c0, ctail⟩
    · exact absurd hdne2 hdne
    · rw [hdne2] at hp
      rcases hmm : (splitOnChar '-' (c0 :: ctail)).mapM strToInt with _ | dp
      · rw [hmm] at hp
        simp at hp
      · rw [hmm] at hp
        rcases dp with _ | ⟨a, _ | ⟨b, _ | ⟨c, tail⟩⟩⟩
        · simp at hp
        · simp at hp
          obtain ⟨h1, h2, h3, h4, h5, h6⟩ := hp
          omega
        · simp at hp
          obtain ⟨h1, h2, h3, h4, h5, h6⟩ := hp
          omega
        · simp at hp
          obtain ⟨h1, h2, h3, h4, h5, h6⟩ := hp
          omega
  refine ⟨hzero.1, hzero.2.1, hzero.2.2, ?_⟩
  unfold processRow
  rw [hs, he]
  have hst : pyTruthy (some str) = true := by
    unfold pyTruthy
    simp [hsne]
  have het : pyTruthy (some e) = true := by
    unfold pyTruthy
    simp [hene]
  rw [hst, het]
  simp only [Bool.and_self, if_true]
  rw [hp, hzero.1, hzero.2.1, hzero.2.2]

/-- The `DictReader` record for `("squeeze", "2014-05-31")` under header
`series,eol`. -/
def rowSqueeze : Row := buildRow ["series", "eol"] ["squeeze", "2014-05-31"]

/-- Witness for the amended C2 at a concrete record and the UTC `mktime`
stand-in. -/
theorem processRow_midnight_when_date_only_witness :
    (0 : Int) = 0 ∧ (0 : Int) = 0 ∧ (0 : Int) = 0
    ∧ processRow mktimeUTC rowSqueeze []
      = .ok (dictInsert [] "squeeze" (mktimeUTC (2014, 5, 31, 0, 0, 0))) :=
  processRow_midnight_when_date_only mktimeUTC rowSqueeze [] "squeeze" "2014-05-31"
    2014 5 31 0 0 0 rfl (by decide) rfl (by decide) (by decide) rfl

/-- C4: when a record carries both an "eol" and an "eol-server" column, the
stored value is derived from the "eol-server" field — `row.get('eol-server')
or row.get('eol')` selects it whenever it is truthy — and when "eol-server"
is missing or empty the selection falls back to the "eol" field. -/
theorem processRow_eol_server_precedence (mk : DateTuple → Int)
    (r1 r2 : Row) (inner1 inner2 : Releases)
    (s1 v w1 : String) (d1 : DateTuple)
    (hs1 : rowGet r1 "series" = some s1) (hs1ne : s1 ≠ "")
    (hv : rowGet r1 "eol-server" = some v) (hvne : v ≠ "")
    (hw1 : rowGet r1 "eol" = some w1)
    (hd1 : parse_date v = some d1)
    (s2 w2 : String) (d2 : DateTuple)
    (hs2 : rowGet r2 "series" = some s2) (hs2ne : s2 ≠ "")
    (hns : pyTruthy (rowGet r2 "eol-server") = false)
    (hw2 : rowGet r2 "eol" = some w2) (hw2ne : w2 ≠ "")
    (hd2 : parse_date w2 = some d2) :
    processRow mk r1 inner1 = .ok (dictInsert inner1 s1 (mk d1))
    ∧ processRow mk r2 inner2 = .ok (dictInsert inner2 s2 (mk d2)) := by
  have htv : pyTruthy (some v) = true := by
    unfold pyTruthy
    simp [hvne]
  have hor1 : pyOr (rowGet r1 "eol-server") (rowGet r1 "eol") = some v := by
    unfold pyOr
    rw [hv, htv]
    simp
  have hor2 : pyOr (rowGet r2 "eol-server") (rowGet r2 "eol") = some w2 := by
    unfold pyOr
    rw [hns]
    simp [hw2]
  constructor
  · unfold processRow
    rw [hs1, hor1, htv]
    have hts : pyTruthy (some s1) = true := by
      unfold pyTruthy
      simp [hs1ne]
    rw [hts]
    simp only [Bool.and_self, if_true]
    rw [hd1]
  · unfold processRow
    rw [hs2, hor2]
    have hts : pyTruthy (some s2) = true := by
      unfold pyTruthy
      simp [hs2ne]
    have htw : pyTruthy (some w2) = true := by
      unfold pyTruthy
      simp [hw2ne]
    rw [hts, htw]
    simp only [Bool.and_self, if_true]
    rw [hd2]

/-- Record with both EOL columns filled: the server one must win. -/
def rowBothEols : Row :=
  buildRow ["series", "eol", "eol-server"] ["bionic", "2023-04-26", "2023-01-01"]

/-- Record whose "eol-server" cell is present but empty: the generic "eol"
cell must be used. -/
def rowEmptyServer : Row :=
  buildRow ["series", "eol-server", "eol"] ["xenial", "", "2021-04-21"]

/-- Witness for C4 at concrete records and the UTC `mktime` stand-in. -/
theorem processRow_eol_server_precedence_witness :
    processRow mktimeUTC rowBothEols []
      = .ok (dictInsert [] "bionic" (mktimeUTC (2023, 1, 1, 0, 0, 0)))
    ∧ processRow mktimeUTC rowEmptyServer []
      = .ok (dictInsert [] "xenial" (mktimeUTC (2021, 4, 21, 0, 0, 0))) :=
  processRow_eol_server_precedence mktimeUTC rowBothEols rowEmptyServer [] []
    "bionic" "2023-01-01" "2023-04-26" (2023, 1, 1, 0, 0, 0)
    rfl (by decide) rfl (by decide) rfl rfl
    "xenial" "2021-04-21" (2021, 4, 21, 0, 0, 0)
    rfl (by decide) rfl rfl (by decide) rfl

/-- C5: a record whose "series" cell is missing or empty, or whose
"eol-server" and "eol" cells are both missing or empty, is silently
skipped: the sub-mapping is returned unchanged and no failure is raised. -/
theorem processRow_skips_incomplete (mk : DateTuple → Int) (r : Row)
    (inner : Releases)
    (h : pyTruthy (rowGet r "series") = false
       ∨ (pyTruthy (rowGet r "eol-server") = false
          ∧ pyTruthy (rowGet r "eol") = false)) :
    processRow mk r inner = .ok inner := by
  unfold processRow
  rcases h with h | ⟨h1, h2⟩
  · rw [h]
    simp
  · have hor : pyOr (rowGet r "eol-server") (rowGet r "eol") = rowGet r "eol" := by
      unfold pyOr
      rw [h1]
      simp
    rw [hor, h2]
    simp

/-- Record with a series but an empty "eol" cell and no "eol-server"
column. -/
def rowNoEol : Row := buildRow ["series", "eol"] ["squeeze", ""]

/-- Witness for C5 at a concrete record. -/
theorem processRow_skips_incomplete_witness :
    processRow mktimeUTC rowNoEol [] = .ok [] :=
  processRow_skips_incomplete mktimeUTC rowNoEol [] (Or.inr ⟨by decide, by decide⟩)

/-- Context whose `debian.csv` has a well-formed record with an unparsable
date field. -/
def ctxBadDate : Context where
  is_directory := fun p => p == "/d"
  list_entries := fun _ => ["debian.csv"]
  read_file := fun _ => asciiBytes "series,eol\nsqueeze,nonsense\n"

/-- Context whose `debian.csv` contains a non-ASCII byte. -/
def ctxBadByte : Context where
  is_directory := fun p => p == "/d"
  list_entries := fun _ => ["debian.csv"]
  read_file := fun _ => [115, 101, 200]

/-- C6: failures of the collaborators are not recovered.  A record with
truthy series and EOL cells whose EOL cell the date parser rejects makes
the record loop fail with `invalidDate`, the failure survives the rest of
the record loop, and reaches the caller of `gather_eol_dates`; likewise a
file that fails ASCII decoding makes `gather_eol_dates` fail with
`decodeError`. -/
theorem gather_propagates_failures (mk : DateTuple → Int)
    (ctx1 ctx2 : Context) (dir : String) (r : Row) (inner : Releases)
    (rows : List Row) (s e : String)
    (hs : rowGet r "series" = some s) (hsne : s ≠ "")
    (he : pyOr (rowGet r "eol-server") (rowGet r "eol") = some e) (hene : e ≠ "")
    (hbad : parse_date e = none)
    (h1d : ctx1.is_directory dir = true)
    (h1l : ctx1.list_entries dir = ["debian.csv"])
    (h1r : ctx1.read_file (pjoin dir "debian.csv")
      = asciiBytes "series,eol\nsqueeze,nonsense\n")
    (h2d : ctx2.is_directory dir = true)
    (h2l : ctx2.list_entries dir = ["debian.csv"])
    (h2r : ctx2.read_file (pjoin dir "debian.csv") = [115, 101, 200]) :
    processRow mk r inner = .error .invalidDate
    ∧ gatherRows mk inner (r :: rows) = .error .invalidDate
    ∧ gather_eol_dates mk ctx1 dir = .error .invalidDate
    ∧ gather_eol_dates mk ctx2 dir = .error .decodeError := by
  have hrow : processRow mk r inner = .error .invalidDate := by
    unfold processRow
    rw [hs, he]
    have hts : pyTruthy (some s) = true := by
      unfold pyTruthy
      simp [hsne]
    have hte : pyTruthy (some e) = true := by
      unfold pyTruthy
      simp [hene]
    rw [hts, hte]
    simp only [Bool.and_self, if_true]
    rw [hbad]
  refine ⟨hrow, ?_, ?_, ?_⟩
  · unfold gatherRows
    rw [hrow]
  · unfold gather_eol_dates
    rw [h1d, h1l]
    simp only [if_true]
    unfold gatherEntries processEntry fileRecords
    rw [h1r]
    rfl
  · unfold gather_eol_dates
    rw [h2d, h2l]
    simp only [if_true]
    unfold gatherEntries processEntry fileRecords
    rw [h2r]
    rfl

/-- Record with a series and a non-empty but unparsable EOL cell. -/
def rowBadDate : Row := buildRow ["series", "eol"] ["squeeze", "nonsense"]

/-- Witness for C6 at concrete contexts and records. -/
theorem gather_propagates_failures_witness :
    processRow mktimeUTC rowBadDate [] = .error .invalidDate
    ∧ gatherRows mktimeUTC [] [rowBadDate] = .error .invalidDate
    ∧ gather_eol_dates mktimeUTC ctxBadDate "/d" = .error .invalidDate
    ∧ gather_eol_dates mktimeUTC ctxBadByte "/d" = .error .decodeError :=
  gather_propagates_failures mktimeUTC ctxBadDate ctxBadByte "/d" rowBadDate [] []
    "squeeze" "nonsense" rfl (by decide) rfl (by decide) rfl
    rfl rfl rfl rfl rfl rfl

/-- Valid code points below the surrogate range survive the `Char.ofNat`
round trip. -/
theorem toNat_ofNat_small (n : Nat) (h : n < 55296) : (Char.ofNat n).toNat = n := by
  have hv : n.isValidChar := Or.inl h
  simp [Char.ofNat, hv, Char.ofNatAux, Char.toNat, UInt32.toNat, UInt32.ofNatCore]

/-- ASCII lowercasing is idempotent on characters. -/
theorem lowerChar_idem (c : Char) : lowerChar (lowerChar c) = lowerChar c := by
  unfold lowerChar
  by_cases h : 65 ≤ c.toNat ∧ c.toNat ≤ 90
  · simp only [if_pos h]
    have ht : (Char.ofNat (c.toNat + 32)).toNat = c.toNat + 32 :=
      toNat_ofNat_small _ (by omega)
    rw [if_neg]
    rw [ht]
    omega
  · simp only [if_neg h]

/-- ASCII lowercasing is idempotent on strings. -/
theorem strLower_idem (s : String) : strLower (strLower s) = strLower s := by
  unfold strLower
  rw [show (String.mk (s.data.map lowerChar)).data = s.data.map lowerChar from rfl]
  rw [List.map_map]
  have : lowerChar ∘ lowerChar = lowerChar := funext lowerChar_idem
  rw [this]

/-- Every key of `dictInsert t k v` is `k` or a key of `t`. -/
theorem dictKeys_insert {β : Type} (t : List (String × β)) (k k2 : String) (v : β)
    (h : k2 ∈ (dictInsert t k v).map Prod.fst) : k2 = k ∨ k2 ∈ t.map Prod.fst := by
  induction t with
  | nil =>
    unfold dictInsert at h
    simp at h
    exact Or.inl h
  | cons p rest ih =>
    unfold dictInsert at h
    by_cases hc : p.1 = k
    · rw [if_pos hc] at h
      simp at h
      rcases h with h | h
      · exact Or.inl h
      · exact Or.inr (by simp [h])
    · rw [if_neg hc] at h
      simp at h
      rcases h with h | h
      · exact Or.inr (by simp [h])
      · rcases ih (by simpa using h) with h2 | h2
        · exact Or.inl h2
        · exact Or.inr (by simp [h2])

/-- One pass of the entry loop either keeps the table or stores some
sub-mapping under a lowercased basename. -/
theorem processEntry_shape (mk : DateTuple → Int) (ctx : Context) (dir : String)
    (t : Table) (e : String) (t1 : Table)
    (h : processEntry mk ctx dir t e = .ok t1) :
    t1 = t ∨ ∃ inner, t1 = dictInsert t (strLower (splitext e).1) inner := by
  unfold processEntry at h
  by_cases hc : strLower (splitext e).2 = ".csv"
  · rw [if_pos hc] at h
    cases hf : fileRecords mk ctx dir e with
    | error err =>
      rw [hf] at h
      cases h
    | ok inner =>
      rw [hf] at h
      injection h with h
      exact Or.inr ⟨inner, h.symm⟩
  · rw [if_neg hc] at h
    injection h with h
    exact Or.inl h.symm

/-- The entry loop preserves the invariant that every key of the table is
lowercase. -/
theorem gatherEntries_keys_lower (mk : DateTuple → Int) (ctx : Context)
    (dir : String) (l : List String) (t t2 : Table)
    (hok : gatherEntries mk ctx dir t l = .ok t2)
    (hinv : ∀ k ∈ t.map Prod.fst, strLower k = k) :
    ∀ k ∈ t2.map Prod.fst, strLower k = k := by
  induction l generalizing t with
  | nil =>
    unfold gatherEntries at hok
    injection hok with hok
    rw [← hok]
    exact hinv
  | cons e rest ih =>
    unfold gatherEntries at hok
    cases hpe : processEntry mk ctx dir t e with
    | error err =>
      rw [hpe] at hok
      cases hok
    | ok t1 =>
      rw [hpe] at hok
      apply ih t1 hok
      rcases processEntry_shape mk ctx dir t e t1 hpe with hsh | ⟨inner, hsh⟩
      · rw [hsh]
        exact hinv
      · rw [hsh]
        intro k hk
        rcases dictKeys_insert t (strLower (splitext e).1) k inner hk with hk2 | hk2
        · rw [hk2]
          exact strLower_idem (splitext e).1
        · exact hinv k hk2

/-- C7: an entry is recognized exactly by its extension lowercasing to
`.csv`: an entry failing the test leaves the table untouched, an entry
passing it stores its file's sub-mapping under the lowercased basename, and
every distributor key of a `gather_eol_dates` result is a lowercase string
(a fixed point of lowercasing). -/
theorem gather_recognition_and_lowercase (mk : DateTuple → Int) (ctx : Context)
    (dir e1 e2 : String) (t tbl : Table) (inner : Releases) (k : String)
    (h1 : strLower (splitext e1).2 ≠ ".csv")
    (h2 : strLower (splitext e2).2 = ".csv")
    (hf2 : fileRecords mk ctx dir e2 = .ok inner)
    (hok : gather_eol_dates mk ctx dir = .ok tbl)
    (hk : k ∈ tbl.map Prod.fst) :
    processEntry mk ctx dir t e1 = .ok t
    ∧ processEntry mk ctx dir t e2 = .ok (dictInsert t (strLower (splitext e2).1) inner)
    ∧ strLower k = k := by
  refine ⟨?_, ?_, ?_⟩
  · unfold processEntry
    rw [if_neg h1]
  · unfold processEntry
    rw [if_pos h2, hf2]
  · unfold gather_eol_dates at hok
    by_cases hd : ctx.is_directory dir = true
    · rw [hd] at hok
      simp only [if_true] at hok
      exact gatherEntries_keys_lower mk ctx dir (ctx.list_entries dir) [] tbl hok
        (by intro k2 hk2; cases hk2) k hk
    · rw [Bool.not_eq_true] at hd
      rw [hd] at hok
      simp only [Bool.false_eq_true, if_false] at hok
      injection hok with hok
      rw [← hok] at hk
      cases hk

/-- A context presenting one recognized file with an uppercased name,
`Ubuntu.CSV`. -/
def ctxUbuntu : Context where
  is_directory := fun p => p == "/d"
  list_entries := fun _ => ["README", "Ubuntu.CSV"]
  read_file := fun _ => asciiBytes "series,eol\nbionic,2023-04-26\n"

/-- Witness for C7: `Ubuntu.CSV` is recognized and stored as distributor
`ubuntu`, `README` is skipped. -/
theorem gather_recognition_and_lowercase_witness :
    processEntry mktimeUTC ctxUbuntu "/d" [] "README" = .ok []
    ∧ processEntry mktimeUTC ctxUbuntu "/d" [] "Ubuntu.CSV"
      = .ok (dictInsert [] (strLower (splitext "Ubuntu.CSV").1)
          [("bionic", mktimeUTC (2023, 4, 26, 0, 0, 0))])
    ∧ strLower "ubuntu" = "ubuntu" :=
  gather_recognition_and_lowercase mktimeUTC ctxUbuntu "/d" "README" "Ubuntu.CSV"
    [] [("ubuntu", [("bionic", mktimeUTC (2023, 4, 26, 0, 0, 0))])]
    [("bionic", mktimeUTC (2023, 4, 26, 0, 0, 0))] "ubuntu"
    (by decide) (by decide) rfl rfl (by simp)

/-- The entry loop only consults the context through `read_file`, so two
contexts agreeing on reads run it identically. -/
theorem gatherEntries_ext (mk : DateTuple → Int) (ctx1 ctx2 : Context)
    (dir : String) (l : List String) (t : Table)
    (hr : ∀ f, ctx1.read_file f = ctx2.read_file f) :
    gatherEntries mk ctx1 dir t l = gatherEntries mk ctx2 dir t l := by
  induction l generalizing t with
  | nil => rfl
  | cons e rest ih =>
    unfold gatherEntries
    have hpe : processEntry mk ctx1 dir t e = processEntry mk ctx2 dir t e := by
      unfold processEntry fileRecords
      rw [hr (pjoin dir e)]
    rw [hpe]
    cases processEntry mk ctx2 dir t e with
    | ok t1 => exact ih t1
    | error err => rfl

/-- C8: `gather_eol_dates` is deterministic — two runs against contexts
that report the same directory test, the same listing and the same file
contents return structurally equal tables. -/
theorem gather_deterministic (mk : DateTuple → Int) (ctx1 ctx2 : Context)
    (dir : String)
    (hd : ctx1.is_directory dir = ctx2.is_directory dir)
    (hl : ctx1.list_entries dir = ctx2.list_entries dir)
    (hr : ∀ f, ctx1.read_file f = ctx2.read_file f) :
    gather_eol_dates mk ctx1 dir = gather_eol_dates mk ctx2 dir := by
  unfold gather_eol_dates
  rw [hd, hl]
  by_cases h : ctx2.is_directory dir = true
  · rw [h]
    simp only [if_true]
    exact gatherEntries_ext mk ctx1 ctx2 dir (ctx2.list_entries dir) [] hr
  · rw [Bool.not_eq_true] at h
    rw [h]
    rfl

/-- A second context reporting the same observations as `ctxDebianSimple`
through different function bodies. -/
def ctxDebianSimple2 : Context where
  is_directory := fun p => "/usr/share/distro-info" == p
  list_entries := fun p => if p == p then ["debian.csv"] else []
  read_file := fun _ => asciiBytes "series,eol\nsqueeze,2014-05-31\n"

/-- Witness for C8 at two concrete observationally equal contexts. -/
theorem gather_deterministic_witness :
    gather_eol_dates mktimeUTC ctxDebianSimple "/usr/share/distro-info"
      = gather_eol_dates mktimeUTC ctxDebianSimple2 "/usr/share/distro-info" :=
  gather_deterministic mktimeUTC ctxDebianSimple ctxDebianSimple2
    "/usr/share/distro-info" rfl rfl (fun _ => rfl)

/-- Looking up the just-assigned key returns the just-assigned value. -/
theorem dictLookup_insert_self {β : Type} (t : List (String × β)) (k : String)
    (v : β) : dictLookup (dictInsert t k v) k = some v := by
  induction t with
  | nil =>
    unfold dictInsert dictLookup
    simp
  | cons p rest ih =>
    unfold dictInsert
    by_cases hc : p.1 = k
    · rw [if_pos hc]
      unfold dictLookup
      simp
    · rw [if_neg hc]
      unfold dictLookup
      rw [if_neg hc]
      exact ih

/-- Assignment never removes a key. -/
theorem dictLookup_insert_isSome {β : Type} (t : List (String × β))
    (k k2 : String) (v : β) (h : (dictLookup t k2).isSome = true) :
    (dictLookup (dictInsert t k v) k2).isSome = true := by
  induction t with
  | nil =>
    unfold dictLookup at h
    simp at h
  | cons p rest ih =>
    by_cases hc : p.1 = k
    · unfold dictInsert
      rw [if_pos hc]
      unfold dictLookup
      by_cases hc2 : k = k2
      · rw [if_pos hc2]
        rfl
      · rw [if_neg hc2]
        unfold dictLookup at h
        rw [hc] at h
        rw [if_neg hc2] at h
        exact h
    · unfold dictInsert
      rw [if_neg hc]
      unfold dictLookup
      unfold dictLookup at h
      by_cases hc2 : p.1 = k2
      · rw [if_pos hc2] at h ⊢
        exact h
      · rw [if_neg hc2] at h ⊢
        exact ih h

/-- A recognized entry stores some sub-mapping under its lowercased
basename. -/
theorem processEntry_csv_shape (mk : DateTuple → Int) (ctx : Context)
    (dir : String) (t : Table) (e : String) (t1 : Table)
    (hcsv : strLower (splitext e).2 = ".csv")
    (h : processEntry mk ctx dir t e = .ok t1) :
    ∃ inner, t1 = dictInsert t (strLower (splitext e).1) inner := by
  unfold processEntry at h
  rw [if_pos hcsv] at h
  cases hf : fileRecords mk ctx dir e with
  | error err =>
    rw [hf] at h
    cases h
  | ok inner =>
    rw [hf] at h
    injection h with h
    exact ⟨inner, h.symm⟩

/-- The entry loop never removes a key. -/
theorem gatherEntries_keeps_keys (mk : DateTuple → Int) (ctx : Context)
    (dir : String) (l : List String) (t t2 : Table) (k : String)
    (hok : gatherEntries mk ctx dir t l = .ok t2)
    (h : (dictLookup t k).isSome = true) :
    (dictLookup t2 k).isSome = true := by
  induction l generalizing t with
  | nil =>
    unfold gatherEntries at hok
    injection hok with hok
    rw [← hok]
    exact h
  | cons e rest ih =>
    unfold gatherEntries at hok
    cases hpe : processEntry mk ctx dir t e with
    | error err =>
      rw [hpe] at hok
      cases hok
    | ok t1 =>
      rw [hpe] at hok
      apply ih t1 hok
      rcases processEntry_shape mk ctx dir t e t1 hpe with hsh | ⟨inner, hsh⟩
      · rw [hsh]
        exact h
      · rw [hsh]
        exact dictLookup_insert_isSome t (strLower (splitext e).1) k inner h

/-- Once the entry loop has passed a recognized entry, the table keeps a
sub-mapping under its lowercased basename. -/
theorem gatherEntries_key_of_member (mk : DateTuple → Int) (ctx : Context)
    (dir : String) (l : List String) (t t2 : Table) (e : String)
    (hmem : e ∈ l) (hcsv : strLower (splitext e).2 = ".csv")
    (hok : gatherEntries mk ctx dir t l = .ok t2) :
    (dictLookup t2 (strLower (splitext e).1)).isSome = true := by
  induction l generalizing t with
  | nil => cases hmem
  | cons a rest ih =>
    unfold gatherEntries at hok
    cases hpe : processEntry mk ctx dir t a with
    | error err =>
      rw [hpe] at hok
      cases hok
    | ok t1 =>
      rw [hpe] at hok
      rcases List.mem_cons.mp hmem with hea | hea
      · rcases processEntry_csv_shape mk ctx dir t a t1 (hea ▸ hcsv) hpe with ⟨inner, hsh⟩
        apply gatherEntries_keeps_keys mk ctx dir rest t1 t2 _ hok
        rw [hsh, hea]
        rw [dictLookup_insert_self]
        rfl
      · exact ih t1 hea hok

/-- A context presenting `debian.csv` whose only record has an empty EOL
cell, so no record survives. -/
def ctxDebianEmptyEol : Context where
  is_directory := fun p => p == "/d"
  list_entries := fun _ => ["debian.csv"]
  read_file := fun _ => asciiBytes "series,eol\nsqueeze,\n"

/-- C9: every recognized file of the scanned directory contributes a
distributor key to the result, even when none of its records is stored: a
`debian.csv` whose only record has an empty EOL cell still yields the key
"debian", bound to the empty sub-mapping. -/
theorem gather_entry_per_recognized_file (mk : DateTuple → Int)
    (ctx ctx2 : Context) (dir entry : String) (tbl : Table)
    (hdir : ctx.is_directory dir = true)
    (hok : gather_eol_dates mk ctx dir = .ok tbl)
    (hmem : entry ∈ ctx.list_entries dir)
    (hcsv : strLower (splitext entry).2 = ".csv")
    (h2d : ctx2.is_directory dir = true)
    (h2l : ctx2.list_entries dir = ["debian.csv"])
    (h2r : ctx2.read_file (pjoin dir "debian.csv")
      = asciiBytes "series,eol\nsqueeze,\n") :
    (dictLookup tbl (strLower (splitext entry).1)).isSome = true
    ∧ gather_eol_dates mk ctx2 dir = .ok [("debian", [])] := by
  constructor
  · unfold gather_eol_dates at hok
    rw [hdir] at hok
    simp only [if_true] at hok
    exact gatherEntries_key_of_member mk ctx dir (ctx.list_entries dir) [] tbl
      entry hmem hcsv hok
  · have hfile : fileRecords mk ctx2 dir "debian.csv" = .ok [] := by
      unfold fileRecords
      rw [h2r]
      rfl
    unfold gather_eol_dates
    rw [h2d, h2l]
    simp only [if_true]
    unfold gatherEntries processEntry
    rw [hfile]
    rfl

/-- Witness for C9 at concrete contexts. -/
theorem gather_entry_per_recognized_file_witness :
    (dictLookup [("debian", ([] : Releases))]
      (strLower (splitext "debian.csv").1)).isSome = true
    ∧ gather_eol_dates mktimeUTC ctxDebianEmptyEol "/d" = .ok [("debian", [])] :=
  gather_entry_per_recognized_file mktimeUTC ctxDebianEmptyEol ctxDebianEmptyEol
    "/d" "debian.csv" [("debian", [])] rfl rfl (by decide) (by decide)
    rfl rfl rfl

/-- C10: when two directory entries lowercase to the same distributor id,
the later entry's `known_dates[distributor_id] = {}` reinitializes the
sub-mapping, so the result holds exactly the records of the later file and
every record gathered from the earlier file is discarded. -/
theorem gather_duplicate_distributor_last_wins (mk : DateTuple → Int)
    (ctx : Context) (dir e1 e2 : String) (tbl : Table) (inner2 : Releases)
    (hdir : ctx.is_directory dir = true)
    (hlist : ctx.list_entries dir = [e1, e2])
    (h1 : strLower (splitext e1).2 = ".csv")
    (h2 : strLower (splitext e2).2 = ".csv")
    (hid : strLower (splitext e1).1 = strLower (splitext e2).1)
    (hf2 : fileRecords mk ctx dir e2 = .ok inner2)
    (hok : gather_eol_dates mk ctx dir = .ok tbl) :
    tbl = [(strLower (splitext e2).1, inner2)] := by
  unfold gather_eol_dates at hok
  rw [hdir, hlist] at hok
  simp only [if_true] at hok
  unfold gatherEntries at hok
  cases hf1 : fileRecords mk ctx dir e1 with
  | error err =>
    unfold processEntry at hok
    rw [if_pos h1, hf1] at hok
    cases hok
  | ok inner1 =>
    have hpe1 : processEntry mk ctx dir [] e1
        = .ok [(strLower (splitext e1).1, inner1)] := by
      unfold processEntry
      rw [if_pos h1, hf1]
      rfl
    rw [hpe1] at hok
    unfold gatherEntries at hok
    have hpe2 : processEntry mk ctx dir [(strLower (splitext e1).1, inner1)] e2
        = .ok [(strLower (splitext e2).1, inner2)] := by
      unfold processEntry
      rw [if_pos h2, hf2, hid]
      unfold dictInsert
      simp
    rw [hpe2] at hok
    unfold gatherEntries at hok
    injection hok with hok
    exact hok.symm

/-- A context with two entries that both lowercase to distributor
`debian`, carrying different records. -/
def ctxDupDebian : Context where
  is_directory := fun p => p == "/d"
  list_entries := fun _ => ["Debian.csv", "debian.CSV"]
  read_file := fun f =>
    if f == "/d/Debian.csv" then asciiBytes "series,eol\nsqueeze,2014-05-31\n"
    else asciiBytes "series,eol\nlenny,2012-02-06\n"

/-- Witness for C10: with `Debian.csv` then `debian.CSV` in the listing,
only the later file's record survives. -/
theorem gather_duplicate_distributor_last_wins_witness :
    [("debian", [("lenny", mktimeUTC (2012, 2, 6, 0, 0, 0))])]
      = [(strLower (splitext "debian.CSV").1,
          [("lenny", mktimeUTC (2012, 2, 6, 0, 0, 0))])] :=
  gather_duplicate_distributor_last_wins mktimeUTC ctxDupDebian "/d"
    "Debian.csv" "debian.CSV"
    [("debian", [("lenny", mktimeUTC (2012, 2, 6, 0, 0, 0))])]
    [("lenny", mktimeUTC (2012, 2, 6, 0, 0, 0))]
    rfl rfl (by decide) (by decide) (by decide) rfl rfl
